import Mathlib

/-!
# Verification of the build-verify-repair orchestrator

Shallow embedding of the core of the repository: the git checkpoint layer
(`src/ui-debugger/src/git.ts`), the command runner and run state machine
(`src/debug-pipeline/src/pipeline.ts`), the HTTP trigger surface
(`src/debug-pipeline/src/server.ts` and the hardened handler in
`src/ui-debugger/src/dashboard.ts`), the path-containment safety layer
(the security module embedded in `src/ui-debugger/src/mcp.ts`), and the
auto-fix loop (`runAutoFix` in `src/ui-debugger/src/server.ts`).

Effectful TypeScript is embedded as pure functions over explicit state:
subprocess executions and oracle (LLM) replies are inputs drawn from an
environment record, shell side effects are accumulated as explicit command
lists, and the in-process mutable `state` object is threaded as a value.
-/

set_option autoImplicit false

namespace AidaCore

/-! ### Git checkpoint layer (`src/ui-debugger/src/git.ts`)

Shell commands issued by the git layer are recorded as an explicit list of
`GitCmd` values; an empty list means no subprocess was spawned, so the
working tree is untouched by the call. -/

/-- One git subprocess invocation, as issued by `git.ts`. -/
inductive GitCmd where
  | resetHard (target : String)
  | stageAndCommit (attempt : Nat)
  | discard
deriving DecidableEq, Repr

/-- Character class of the rollback validation regex `[a-f0-9]` under the
`i` flag: a hexadecimal digit in either case. -/
def isHexDigitChar (c : Char) : Bool :=
  (decide ('0' ≤ c) && decide (c ≤ '9')) ||
  (decide ('a' ≤ c) && decide (c ≤ 'f')) ||
  (decide ('A' ≤ c) && decide (c ≤ 'F'))

/-- The anchored commit-hash pattern tested by `rollback` in `git.ts`:
`/^[a-f0-9]{7,40}$/i`, i.e. 7 to 40 hexadecimal characters and nothing
else. -/
def matchesHashPattern (s : String) : Bool :=
  decide (7 ≤ s.length) && decide (s.length ≤ 40) && s.data.all isHexDigitChar

/-- The function `rollback(cwd, commitHash)` from `git.ts`: validates the hash against
`matchesHashPattern` before shelling out `git reset --hard <hash>`; on a
malformed hash it returns `false` without spawning any subprocess. The
`repoOk` flag stands for the surrounding `try`/`catch`: when the reset
command itself fails (e.g. the directory is not a repository) the command
was still issued but the function returns `false`. -/
def rollback (repoOk : Bool) (commitHash : String) : Bool × List GitCmd :=
  if matchesHashPattern commitHash then
    if repoOk then (true, [GitCmd.resetHard commitHash])
    else (false, [GitCmd.resetHard commitHash])
  else (false, [])

/-! ### Command runner (`executeCommand` in `src/debug-pipeline/src/pipeline.ts`)

`executeCommand` races three promise resolutions: the child's `close`
event, the child's `error` event, and a `setTimeout` timer that kills the
child and resolves with a sentinel result.  A subprocess behavior is the
event the child would deliver (with its wall-clock time) plus the output
captured up to resolution; the promise settles with whichever of the event
and the timer comes first, and resolves exactly once. -/

/-- What the spawned child process does: `closed code t` is a `close`
event at time `t` (Node reports `code = none` when the child was killed by
a signal), `errored msg t` is an `error` event (e.g. spawn failure), and
`hang` is a child that never settles on its own. -/
inductive ProcEvent where
  | closed (code : Option Int) (t : Nat)
  | errored (msg : String) (t : Nat)
  | hang
deriving DecidableEq, Repr

/-- A subprocess behavior: captured stdout/stderr plus the event the child
delivers. -/
structure ProcBehavior where
  out : String
  err : String
  event : ProcEvent
deriving Repr

/-- Outcome of one subprocess execution (`CommandResult` in `types.ts`). -/
structure CommandResult where
  success : Bool
  exitCode : Int
  stdout : String
  stderr : String
  duration : Nat
deriving DecidableEq, Repr

/-- The sentinel the timeout handler appends to stderr. -/
def timeoutSentinel : String := "\n[TIMEOUT] Command exceeded time limit"

/-- The result the `setTimeout` handler resolves with after killing the
child: `success = false`, `exitCode = -1`, sentinel appended to stderr. -/
def timeoutResult (timeoutMs : Nat) (b : ProcBehavior) : CommandResult :=
  { success := false
    exitCode := -1
    stdout := b.out
    stderr := b.err ++ timeoutSentinel
    duration := timeoutMs }

/-- The function `executeCommand` from `pipeline.ts`: resolves with the `close` result
(`success ↔ code = 0`, `exitCode = code ?? -1`) or the `error` result
(`success = false`, `exitCode = -1`, message appended to stderr) when the
child settles before the timer fires, and with `timeoutResult` otherwise.
The returned promise always resolves, never rejects. -/
def executeCommand (timeoutMs : Nat) (b : ProcBehavior) : CommandResult :=
  match b.event with
  | ProcEvent.closed code t =>
      if t < timeoutMs then
        { success := code == some 0
          exitCode := code.getD (-1)
          stdout := b.out
          stderr := b.err
          duration := t }
      else timeoutResult timeoutMs b
  | ProcEvent.errored msg t =>
      if t < timeoutMs then
        { success := false
          exitCode := -1
          stdout := b.out
          stderr := b.err ++ "\n" ++ msg
          duration := t }
      else timeoutResult timeoutMs b
  | ProcEvent.hang => timeoutResult timeoutMs b

/-- The timer fires before (or instead of) the child's own event: the
child closes or errors no earlier than the timeout, or never settles. -/
def exceedsTimeout (timeoutMs : Nat) : ProcEvent → Bool
  | ProcEvent.closed _ t => decide (timeoutMs ≤ t)
  | ProcEvent.errored _ t => decide (timeoutMs ≤ t)
  | ProcEvent.hang => true

/-! ### Run state machine (`runPipeline` in `src/debug-pipeline/src/pipeline.ts`)

`runPipeline` executes the build, enters a bounded fix loop while the
build fails, then (when `runTests`) executes the tests and enters a second
bounded fix loop with a regression guard.  Everything the loops observe
from the outside world — subprocess results, whether the oracle's fix
changed any file, whether `git commit` succeeded — is drawn from a
`PipeEnv` indexed by the attempt ordinal. -/

/-- The enum `PipelineStage` from `types.ts`. -/
inductive Stage where
  | idle | linting | building | testing | analyzing | fixing | verifying | complete | failed
deriving DecidableEq, Repr

/-- The configuration fields of `PipelineConfig` that drive the control
flow of `runPipeline`, after merging with `DEFAULTS`. -/
structure PipeCfg where
  maxFixAttempts : Nat
  autoFix : Bool
  runTests : Bool
  gitEnabled : Bool
  gitCommitFixes : Bool
deriving Repr

/-- External-world inputs of one `runPipeline` call.  `buildFixResult k`
is the success of the build re-run verifying build-fix attempt `k`;
`testRebuild k` is the success of the regression-guard rebuild in test-fix
attempt `k`; `testRerun k` the success of the test re-run; `…Changed k`
whether `git diff` reported changed files after the fix of attempt `k`;
`…CommitOk k` whether `git commit` succeeded there. -/
structure PipeEnv where
  isRepo : Bool
  initialBuild : Bool
  buildFixResult : Nat → Bool
  buildChanged : Nat → Bool
  buildCommitOk : Nat → Bool
  initialTest : Bool
  testRebuild : Nat → Bool
  testRerun : Nat → Bool
  testChanged : Nat → Bool
  testCommitOk : Nat → Bool

/-- A `FixAttempt` record as appended to `run.fixAttempts`: the attempt
ordinal, the success flag of the verifying command result stored in it,
and the commit hash when the fix was committed (commit hashes are
abstracted by the attempt ordinal that produced them). -/
structure FixRec where
  attempt : Nat
  resultSuccess : Bool
  commitHash : Option Nat
deriving DecidableEq, Repr

/-- State of the build-phase fix loop: current build success flag, the
attempt counter `fixAttempt`, the records appended so far, and the git
commands issued so far. -/
structure BLoop where
  buildOk : Bool
  attempt : Nat
  records : List FixRec
  cmds : List GitCmd
deriving Repr

/-- One iteration of the build-phase fix loop of `runPipeline`:
increments the counter, commits the fix when git is on, changes exist and
`gitCommitFixes` is set, re-runs the build, and appends one `FixAttempt`
record carrying that re-run's result; when the re-run still fails and
commits are disabled, the changes are discarded. -/
def buildFixStep (cfg : PipeCfg) (env : PipeEnv) (st : BLoop) : BLoop :=
  let a := st.attempt + 1
  let tracksGit := env.isRepo && cfg.gitEnabled
  let commits := tracksGit && env.buildChanged a && cfg.gitCommitFixes
  let commitHash : Option Nat :=
    if commits && env.buildCommitOk a then some a else none
  let cmds1 := st.cmds ++ (if commits then [GitCmd.stageAndCommit a] else [])
  let newOk := env.buildFixResult a
  let cmds2 :=
    if !newOk && env.isRepo && cfg.gitEnabled && !cfg.gitCommitFixes then
      cmds1 ++ [GitCmd.discard]
    else cmds1
  { buildOk := newOk
    attempt := a
    records := st.records ++ [⟨a, newOk, commitHash⟩]
    cmds := cmds2 }

/-- The build-phase fix loop of `runPipeline` (`while (!buildResult.success
&& fixAttempt < cfg.maxFixAttempts && cfg.autoFix)`).  The fuel argument
carries the remaining budget `cfg.maxFixAttempts - fixAttempt`, so the
`fixAttempt < cfg.maxFixAttempts` conjunct of the guard is `0 < fuel`. -/
def buildFixLoop (cfg : PipeCfg) (env : PipeEnv) : Nat → BLoop → BLoop
  | 0, st => st
  | fuel + 1, st =>
    if st.buildOk || !cfg.autoFix then st
    else buildFixLoop cfg env fuel (buildFixStep cfg env st)

/-- State of the test-phase fix loop: current test success flag, the
attempt counter, the records and git commands so far, and the number of
times the test command has been executed. -/
structure TLoop where
  testOk : Bool
  attempt : Nat
  records : List FixRec
  cmds : List GitCmd
  testsRun : Nat
deriving Repr

/-- One iteration of the test-phase fix loop of `runPipeline`, including
the regression guard: increments the counter, commits the fix when git is
on, changes exist and `gitCommitFixes` is set, then re-runs the *build*
first.  When that rebuild fails, it calls `rollback(projectRoot,
"HEAD~1")` (provided the directory is a repository and a commit hash was
recorded) and `continue`s — the test command is not run and no record is
appended in that iteration.  Otherwise it re-runs the tests and appends
one record carrying the test result. -/
def testFixStep (cfg : PipeCfg) (env : PipeEnv) (st : TLoop) : TLoop :=
  let a := st.attempt + 1
  let tracksGit := env.isRepo && cfg.gitEnabled
  let commits := tracksGit && env.testChanged a && cfg.gitCommitFixes
  let commitHash : Option Nat :=
    if commits && env.testCommitOk a then some a else none
  let cmds1 := st.cmds ++ (if commits then [GitCmd.stageAndCommit a] else [])
  if env.testRebuild a then
    let tOk := env.testRerun a
    { testOk := tOk
      attempt := a
      records := st.records ++ [⟨a, tOk, commitHash⟩]
      cmds := cmds1
      testsRun := st.testsRun + 1 }
  else
    let cmds2 :=
      if env.isRepo && commitHash.isSome then
        cmds1 ++ (rollback env.isRepo "HEAD~1").2
      else cmds1
    { st with attempt := a, cmds := cmds2 }

/-- The test-phase fix loop of `runPipeline` (`while (!testResult.success
&& fixAttempt < cfg.maxFixAttempts && cfg.autoFix)`); the fuel carries the
remaining budget exactly as in `buildFixLoop`. -/
def testFixLoop (cfg : PipeCfg) (env : PipeEnv) : Nat → TLoop → TLoop
  | 0, st => st
  | fuel + 1, st =>
    if st.testOk || !cfg.autoFix then st
    else testFixLoop cfg env fuel (testFixStep cfg env st)

/-- The observable outcome of one `runPipeline` call: terminal stage,
success flag, the `fixAttempts` list, the terminal error, the git
commands issued by the fix loops, and how many times the test command
ran. -/
structure RunModel where
  status : Stage
  success : Bool
  fixAttempts : List FixRec
  error : Option String
  gitCmds : List GitCmd
  testsRun : Nat
deriving Repr

/-- The function `runPipeline` from `pipeline.ts`, restricted to its control flow:
build phase with its fix loop; on exhaustion, terminal `failed` with the
error string of line 351; otherwise the test phase (when `runTests`) with
its fix loop and regression guard; on exhaustion there, terminal `failed`;
otherwise terminal `complete` with `success = true`. -/
def runPipelineModel (cfg : PipeCfg) (env : PipeEnv) : RunModel :=
  let b := buildFixLoop cfg env cfg.maxFixAttempts
    { buildOk := env.initialBuild, attempt := 0, records := [], cmds := [] }
  if !b.buildOk then
    { status := Stage.failed
      success := false
      fixAttempts := b.records
      error := some "Build failed after all fix attempts"
      gitCmds := b.cmds
      testsRun := 0 }
  else if cfg.runTests then
    let t := testFixLoop cfg env cfg.maxFixAttempts
      { testOk := env.initialTest, attempt := 0, records := b.records
        cmds := b.cmds, testsRun := 1 }
    if !t.testOk then
      { status := Stage.failed
        success := false
        fixAttempts := t.records
        error := some "Tests failed after all fix attempts"
        gitCmds := t.cmds
        testsRun := t.testsRun }
    else
      { status := Stage.complete
        success := true
        fixAttempts := t.records
        error := none
        gitCmds := t.cmds
        testsRun := t.testsRun }
  else
    { status := Stage.complete
      success := true
      fixAttempts := b.records
      error := none
      gitCmds := b.cmds
      testsRun := 0 }

/-! ### HTTP trigger surface (`POST /api/run` in `src/debug-pipeline/src/server.ts`)

The handler reads the process-wide `PipelineState` via `getState()`; when
`isRunning` it answers `409` with no other effect.  Otherwise it validates
`projectRoot`, then calls `runPipeline` without awaiting; the synchronous
prefix of `runPipeline` sets `isRunning := true`, installs the freshly
allocated run as `currentRun`, and bumps `stats.totalRuns`, all before the
handler's response is sent.  Run identities are abstracted by the value of
the `totalRuns` counter at allocation time. -/

/-- The slice of `PipelineState` the trigger surface interacts with. -/
structure ServerState where
  isRunning : Bool
  currentRun : Option Nat
  totalRuns : Nat
deriving DecidableEq, Repr

/-- The HTTP outcome of a start request. -/
inductive StartOutcome where
  | conflict
  | badRequest
  | started (runId : Nat)
deriving DecidableEq, Repr

/-- The `POST /api/run` handler: `409` and untouched state while a run is
active; `400` and untouched state without a `projectRoot`; otherwise a new
run is allocated and becomes the single active run. -/
def postRunHandler (st : ServerState) (hasProjectRoot : Bool) :
    StartOutcome × ServerState :=
  if st.isRunning then (StartOutcome.conflict, st)
  else if !hasProjectRoot then (StartOutcome.badRequest, st)
  else
    (StartOutcome.started st.totalRuns,
      { isRunning := true
        currentRun := some st.totalRuns
        totalRuns := st.totalRuns + 1 })

/-! ### Path containment (`safeResolvePath` in the security module of
`src/ui-debugger/src/mcp.ts`, `applyEdits` in `src/ui-debugger/src/server.ts`)

POSIX paths are embedded as their lists of segments after lexical
normalization, which is exactly what `path.resolve` computes: splitting on
`/` (empty segments vanish), dropping `.`, and letting `..` consume the
previous segment (or vanish at the root of an absolute path).  `cwd` is
the process working directory `path.resolve` falls back to, given as an
already-normalized absolute segment list.  Rendering a normalized segment
list `[a, b]` back as the string `/a/b` turns the source's check
`resolved.startsWith(resolvedRoot + path.sep) || resolved === resolvedRoot`
into the segment-list prefix test `underRoot` below (the `startsWith`
disjunct is a strict extension of a nonempty root, the equality disjunct
covers the rest). -/

/-- Character-level splitter on `/`: the chunks of the character list
between slashes (the equivalent of `split('/')`). -/
def splitSlashAux : List Char → List Char → List String
  | [], acc => [String.mk acc.reverse]
  | c :: cs, acc =>
    if c = '/' then String.mk acc.reverse :: splitSlashAux cs []
    else splitSlashAux cs (c :: acc)

/-- Path segments: split on `/` and drop empty segments. -/
def segsOf (p : String) : List String :=
  (splitSlashAux p.data []).filter (fun s => s ≠ "")

/-- Embeds `path.isAbsolute` for POSIX paths: a leading `/`. -/
def isAbsPath (p : String) : Bool :=
  match p.data with
  | [] => false
  | c :: _ => c = '/'

/-- Lexical normalization of an absolute path's segments: drop `.`, let
`..` consume the previous segment and vanish at the root. -/
def normAbs (segs : List String) : List String :=
  segs.foldl
    (fun acc s =>
      if s = "." then acc
      else if s = ".." then acc.dropLast
      else acc ++ [s]) []

/-- Embeds `path.resolve(p)` relative to the working directory `cwd`. -/
def resolvePath (cwd : List String) (p : String) : List String :=
  if isAbsPath p then normAbs (segsOf p) else normAbs (cwd ++ segsOf p)

/-- Embeds `path.resolve(path.isAbsolute(file) ? file : path.join(root, file))`,
the `fullPath`/`resolved` computation of `safeResolvePath`: lexically,
join followed by resolve is one normalization pass over the concatenated
segments. -/
def joinThenResolve (cwd : List String) (root file : String) : List String :=
  if isAbsPath file then normAbs (segsOf file)
  else if isAbsPath root then normAbs (segsOf root ++ segsOf file)
  else normAbs (cwd ++ segsOf root ++ segsOf file)

/-- The containment check of `safeResolvePath` on normalized segment
lists: `resolved.startsWith(resolvedRoot + path.sep) || resolved ===
resolvedRoot`. -/
def underRoot (root p : List String) : Bool :=
  (!root.isEmpty && root.isPrefixOf p) || decide (p = root)

/-- The function `safeResolvePath(filePath, projectRoot)`: resolves the target, then
returns it only when it falls under the resolved root; otherwise warns and
returns `null`. -/
def safeResolvePath (cwd : List String) (file root : String) :
    Option (List String) :=
  let resolved := joinThenResolve cwd root file
  let resolvedRoot := resolvePath cwd root
  if underRoot resolvedRoot resolved then some resolved else none

/-- One oracle-supplied edit: target path and the full new file content. -/
structure Edit where
  file : String
  content : String
deriving Repr

/-- The files on disk, as an association of normalized absolute paths to
contents. -/
abbrev FileSys : Type := List (List String × String)

/-- Read a file from the modeled disk. -/
def fsLookup (fs : FileSys) (p : List String) : Option String :=
  (fs.find? (fun e => decide (e.1 = p))).map (fun e => e.2)

/-- Embeds `fs.writeFileSync` on the modeled disk: overwrite the entry at `p` or
append a fresh one. -/
def fsWrite (fs : FileSys) (p : List String) (content : String) : FileSys :=
  if fs.any (fun e => decide (e.1 = p)) then
    fs.map (fun e => if e.1 = p then (p, content) else e)
  else fs ++ [(p, content)]

/-- The body of the `for (const edit of edits)` loop of `applyEdits`:
resolve the target through `safeResolvePath`; a `null` resolution is
skipped with a warning (`continue`), a safe one is written and its
(source-spelled) path pushed onto `changedFiles`. -/
def applyEditStep (cwd : List String) (root : String)
    (acc : List String × FileSys) (edit : Edit) : List String × FileSys :=
  match safeResolvePath cwd edit.file root with
  | none => acc
  | some p => (acc.1 ++ [edit.file], fsWrite acc.2 p edit.content)

/-- The function `applyEdits(edits, projectRoot)` from the auto-fix module. -/
def applyEdits (cwd : List String) (edits : List Edit) (root : String)
    (fs : FileSys) : List String × FileSys :=
  edits.foldl (applyEditStep cwd root) ([], fs)

/-! ### Input coercion (`validateInt` in the security module, the run
config marshaling of the two HTTP handlers)

Request-body values reaching `validateInt` are either absent
(`undefined`/`null`), unparsable (`NaN` after `parseInt`/`Number`), or a
number; numbers are embedded at integer granularity, so the trailing
`Math.floor` is the identity. -/

/-- An untrusted numeric field of a request body. -/
inductive ReqNum where
  | missing
  | nan
  | val (n : Int)
deriving DecidableEq, Repr

/-- The function `validateInt(value, min, max, defaultValue)` from the security module:
default on absent or unparsable input, clamp to `[min, max]` otherwise. -/
def validateInt (v : ReqNum) (min max dflt : Int) : Int :=
  match v with
  | ReqNum.missing => dflt
  | ReqNum.nan => dflt
  | ReqNum.val n => if n < min then min else if n > max then max else n

/-- The `maxFixAttempts`/`timeout` marshaling of `POST /api/run` in
`src/debug-pipeline/src/server.ts`: `maxFixAttempts ?? 3` and
`timeout ?? 300000` — nullish defaulting only, no clamping. -/
def marshalRunConfigPipelineServer (maxFixAttempts timeout : Option Int) :
    Int × Int :=
  (maxFixAttempts.getD 3, timeout.getD 300000)

/-- The `maxFixAttempts`/`timeout` marshaling of the hardened
`POST /api/run` handler in `src/ui-debugger/src/dashboard.ts`:
`validateInt(req.body.maxFixAttempts, 0, 10, 3)` and
`validateInt(req.body.timeout, 10000, 600000, 300000)`. -/
def marshalRunConfigDashboard (maxFixAttempts timeout : ReqNum) : Int × Int :=
  (validateInt maxFixAttempts 0 10 3, validateInt timeout 10000 600000 300000)

/-! ### Auto-fix loop (`runAutoFix` in the auto-fix module of
`src/ui-debugger/src/server.ts`)

The loop pops the highest-severity remaining issue, asks the oracle for a
fix, applies it and re-verifies; what the oracle and the verifier answer
in attempt `k` is drawn from an `AutoFixEnv`.  Issues are embedded with
their id and a severity rank (`critical = 0`, `high = 1`, `medium = 2`,
`low = 3`), the key of the comparator `order[a.severity] -
order[b.severity]`. -/

/-- An `Issue` consumed by the loop: id and severity rank. -/
structure Issue where
  id : Nat
  severity : Nat
deriving DecidableEq, Repr

/-- What the surrounding world does in one fix attempt: `errored` is a
thrown error (caught by the loop), `noEdits` an oracle reply without file
edits, and `applied still flagsEmpty othersFixed` a round whose fresh
verification reports whether the issue's message still appears among the
flags (`still`), whether the flag list is empty (`flagsEmpty`), and
whether no flag references any original issue any more (`othersFixed`). -/
inductive FixOutcome where
  | errored
  | noEdits
  | applied (still : Bool) (flagsEmpty : Bool) (othersFixed : Bool)
deriving DecidableEq, Repr

/-- The oracle/verifier behavior per attempt ordinal. -/
structure AutoFixEnv where
  outcome : Nat → FixOutcome

/-- One entry of the `attempts` list built by the loop. -/
structure AFAttempt where
  attemptNumber : Nat
  issueId : Nat
  success : Bool
deriving DecidableEq, Repr

/-- Severity-ordered insertion, modeling one step of
`remainingIssues.sort((a, b) => order[a.severity] - order[b.severity])`. -/
def insertBySeverity (x : Issue) : List Issue → List Issue
  | [] => [x]
  | y :: ys =>
    if x.severity ≤ y.severity then x :: y :: ys else y :: insertBySeverity x ys

/-- The severity sort applied to `remainingIssues` before the loop. -/
def sortBySeverity : List Issue → List Issue
  | [] => []
  | x :: xs => insertBySeverity x (sortBySeverity xs)

/-- The `while (remainingIssues.length > 0 && attemptNumber < maxAttempts)`
loop of `runAutoFix`; the fuel carries `maxAttempts - attemptNumber`.
Branches, following the source: a thrown error or an empty edit list
records a failed attempt and drops the issue (`remainingIssues.shift()`);
an applied fix records an attempt whose success is the negation of the
`still` probe, drops the issue on success, drops it on the second recorded
attempt for the same id otherwise; a verification with no flags at all
empties the queue and breaks; one where no original issue is referenced
any more empties the queue. -/
def autoFixLoop (env : AutoFixEnv) :
    Nat → Nat → List Issue → List AFAttempt → List Issue × List AFAttempt
  | 0, _, remaining, attempts => (remaining, attempts)
  | fuel + 1, n, remaining, attempts =>
    match remaining with
    | [] => ([], attempts)
    | issue :: rest =>
      let a := n + 1
      match env.outcome a with
      | FixOutcome.errored =>
          autoFixLoop env fuel a rest (attempts ++ [⟨a, issue.id, false⟩])
      | FixOutcome.noEdits =>
          autoFixLoop env fuel a rest (attempts ++ [⟨a, issue.id, false⟩])
      | FixOutcome.applied still flagsEmpty othersFixed =>
          let succ := !still
          let attempts' := attempts ++ [⟨a, issue.id, succ⟩]
          let remaining1 :=
            if succ then rest
            else if 2 ≤ (attempts'.filter (fun r => r.issueId == issue.id)).length
              then rest
              else issue :: rest
          if flagsEmpty then ([], attempts')
          else
            autoFixLoop env fuel a
              (if othersFixed then [] else remaining1) attempts'

/-- The aggregate `AutoFixResult`; `issuesFixed` is the JS integer
`issues.length - remainingIssues.length`, kept as an `Int` exactly as the
subtraction behaves there. -/
structure AutoFixResult where
  success : Bool
  issuesFixed : Int
  issuesRemaining : Nat
  attempts : List AFAttempt
deriving Repr

/-- The function `runAutoFix`: severity-sort the issues, run the bounded loop, and
aggregate — `issuesFixed = issues.length - remainingIssues.length`,
`issuesRemaining = remainingIssues.length`, success when the queue is
empty or the final verification passes (`finalPass`). -/
def runAutoFix (issues : List Issue) (maxAttempts : Nat) (env : AutoFixEnv)
    (finalPass : Bool) : AutoFixResult :=
  let sorted := sortBySeverity issues
  let out := autoFixLoop env maxAttempts 0 sorted []
  { success := out.1.isEmpty || finalPass
    issuesFixed := (issues.length : Int) - (out.1.length : Int)
    issuesRemaining := out.1.length
    attempts := out.2 }

/-! ## Claim theorems -/

/-- C2: at most one run is active process-wide — in every state with
`isRunning = true`, a start request through `POST /api/run` answers the
conflict outcome (HTTP 409) and leaves the state untouched, so no second
run is allocated. -/
theorem postRun_conflict_when_running (st : ServerState) (hasRoot : Bool)
    (h : st.isRunning = true) :
    postRunHandler st hasRoot = (StartOutcome.conflict, st) := by
  simp [postRunHandler, h]

/-- Witness for `postRun_conflict_when_running` at a concrete busy state. -/
theorem postRun_conflict_when_running_witness :
    (ServerState.mk true (some 4) 5).isRunning = true ∧
    postRunHandler (ServerState.mk true (some 4) 5) true =
      (StartOutcome.conflict, ServerState.mk true (some 4) 5) :=
  ⟨rfl, postRun_conflict_when_running (ServerState.mk true (some 4) 5) true rfl⟩

/-- C4: a string that does not match the 7-to-40-hex-characters pattern
makes `rollback` return `false` while issuing no git command at all (the
working tree is untouched), and conversely any call that does issue a
command was given a string matching the pattern. -/
theorem rollback_rejects_malformed :
    (∀ repoOk h, matchesHashPattern h = false → rollback repoOk h = (false, [])) ∧
    (∀ repoOk h, (rollback repoOk h).2 ≠ [] → matchesHashPattern h = true) := by
  constructor
  · intro repoOk h hm
    simp [rollback, hm]
  · intro repoOk h hcmd
    by_contra hm
    rw [Bool.not_eq_true] at hm
    simp [rollback, hm] at hcmd

/-- Witness for `rollback_rejects_malformed` on a concrete malformed
string (too short and non-hex). -/
theorem rollback_rejects_malformed_witness :
    matchesHashPattern "zz;rm -rf" = false ∧
    rollback true "zz;rm -rf" = (false, []) :=
  ⟨by decide, rollback_rejects_malformed.1 true "zz;rm -rf" (by decide)⟩

/-- C6: a command whose runtime exceeds its timeout resolves with
`success = false`, `exitCode = -1` and the sentinel appended to stderr,
while a child that closes before the timer carries its actual exit code
and untouched stderr — so the two outcomes are distinguishable. -/
theorem executeCommand_timeout_sentinel :
    (∀ tm b, exceedsTimeout tm b.event = true →
      (executeCommand tm b).success = false ∧
      (executeCommand tm b).exitCode = -1 ∧
      (executeCommand tm b).stderr = b.err ++ timeoutSentinel) ∧
    (∀ tm b c t, b.event = ProcEvent.closed (some c) t → t < tm →
      (executeCommand tm b).exitCode = c ∧
      (executeCommand tm b).stderr = b.err) := by
  constructor
  · intro tm b hex
    match hb : b.event with
    | ProcEvent.closed code t =>
        rw [hb] at hex
        simp only [exceedsTimeout, decide_eq_true_eq] at hex
        simp [executeCommand, hb, Nat.not_lt.mpr hex, timeoutResult]
    | ProcEvent.errored msg t =>
        rw [hb] at hex
        simp only [exceedsTimeout, decide_eq_true_eq] at hex
        simp [executeCommand, hb, Nat.not_lt.mpr hex, timeoutResult]
    | ProcEvent.hang =>
        simp [executeCommand, hb, timeoutResult]
  · intro tm b c t hb ht
    simp [executeCommand, hb, ht]

/-- Witness for `executeCommand_timeout_sentinel`: a child still running
at the 100 ms timeout, and a child that closed with exit code 2 at 40 ms. -/
theorem executeCommand_timeout_sentinel_witness :
    (exceedsTimeout 100 (ProcBehavior.mk "o" "e" ProcEvent.hang).event = true ∧
      (executeCommand 100 (ProcBehavior.mk "o" "e" ProcEvent.hang)).success = false ∧
      (executeCommand 100 (ProcBehavior.mk "o" "e" ProcEvent.hang)).exitCode = -1 ∧
      (executeCommand 100 (ProcBehavior.mk "o" "e" ProcEvent.hang)).stderr =
        "e" ++ timeoutSentinel) ∧
    ((executeCommand 100
        (ProcBehavior.mk "o" "e" (ProcEvent.closed (some 2) 40))).exitCode = 2 ∧
      (executeCommand 100
        (ProcBehavior.mk "o" "e" (ProcEvent.closed (some 2) 40))).stderr = "e") :=
  ⟨⟨rfl, executeCommand_timeout_sentinel.1 100 (ProcBehavior.mk "o" "e" ProcEvent.hang) rfl⟩,
    executeCommand_timeout_sentinel.2 100
      (ProcBehavior.mk "o" "e" (ProcEvent.closed (some 2) 40)) 2 40 rfl (by decide)⟩

/-- C10: `executeCommand` is total at its interface — it always resolves
with a `CommandResult`; `success = true` exactly when the child's `close`
event with code `0` is delivered before the timer; a spawn error resolves
(never throws) with `success = false` and `exitCode = -1`, and so does the
timeout. -/
theorem executeCommand_total_interface :
    ∀ tm b,
      ((executeCommand tm b).success = true ↔
        ∃ t, b.event = ProcEvent.closed (some 0) t ∧ t < tm) ∧
      (∀ m t, b.event = ProcEvent.errored m t →
        (executeCommand tm b).success = false ∧
        (executeCommand tm b).exitCode = -1) ∧
      (exceedsTimeout tm b.event = true →
        (executeCommand tm b).success = false ∧
        (executeCommand tm b).exitCode = -1) := by
  intro tm b
  refine ⟨?_, ?_, ?_⟩
  · constructor
    · intro hs
      match hb : b.event with
      | ProcEvent.closed code t =>
          by_cases ht : t < tm
          · have hc : code = some 0 := by
              simp [executeCommand, hb, ht] at hs
              exact hs
            exact ⟨t, by rw [hc], ht⟩
          · simp [executeCommand, hb, ht, timeoutResult] at hs
      | ProcEvent.errored msg t =>
          by_cases ht : t < tm
          · simp [executeCommand, hb, ht] at hs
          · simp [executeCommand, hb, ht, timeoutResult] at hs
      | ProcEvent.hang =>
          simp [executeCommand, hb, timeoutResult] at hs
    · rintro ⟨t, hb, ht⟩
      simp [executeCommand, hb, ht]
  · intro m t hb
    by_cases ht : t < tm
    · simp [executeCommand, hb, ht]
    · simp [executeCommand, hb, ht, timeoutResult]
  · intro hex
    match hb : b.event with
    | ProcEvent.closed code t =>
        rw [hb] at hex
        simp only [exceedsTimeout, decide_eq_true_eq] at hex
        simp [executeCommand, hb, Nat.not_lt.mpr hex, timeoutResult]
    | ProcEvent.errored msg t =>
        rw [hb] at hex
        simp only [exceedsTimeout, decide_eq_true_eq] at hex
        simp [executeCommand, hb, Nat.not_lt.mpr hex, timeoutResult]
    | ProcEvent.hang =>
        simp [executeCommand, hb, timeoutResult]

/-- C9 counterexample: through the `POST /api/run` trigger surface of
`src/debug-pipeline/src/server.ts`, a supplied `maxFixAttempts` of `50`
and a supplied timeout of `5000` ms reach the pipeline config unchanged —
outside the claimed `0–10` and `10000–600000` clamp ranges — because that
handler only applies `?? 3` / `?? 300000` nullish defaulting. -/
theorem pipelineServer_no_clamp_cx :
    marshalRunConfigPipelineServer (some 50) (some 5000) = (50, 5000) ∧
    ¬((50 : Int) ≤ 10) ∧ ¬((10000 : Int) ≤ 5000) := by decide

/-- C9 amended: both trigger handlers default `maxFixAttempts` to `3` and
the timeout to `300000` ms when absent, but only the hardened dashboard
handler clamps — its `validateInt` marshaling always lands in `0–10` and
`10000–600000` — while the debug-pipeline server handler passes supplied
values through unclamped. -/
theorem trigger_defaults_and_dashboard_clamp :
    marshalRunConfigPipelineServer none none = (3, 300000) ∧
    marshalRunConfigDashboard ReqNum.missing ReqNum.missing = (3, 300000) ∧
    (∀ a t : ReqNum,
      0 ≤ (marshalRunConfigDashboard a t).1 ∧
      (marshalRunConfigDashboard a t).1 ≤ 10 ∧
      10000 ≤ (marshalRunConfigDashboard a t).2 ∧
      (marshalRunConfigDashboard a t).2 ≤ 600000) := by
  refine ⟨by decide, by decide, ?_⟩
  intro a t
  refine ⟨?_, ?_, ?_, ?_⟩ <;>
    cases a <;> cases t <;>
      simp only [marshalRunConfigDashboard, validateInt] <;> omega

/-- The build re-run verifying attempt `st.attempt + 1` decides the next
loop state's success flag. -/
theorem buildFixStep_buildOk (cfg : PipeCfg) (env : PipeEnv) (st : BLoop) :
    (buildFixStep cfg env st).buildOk = env.buildFixResult (st.attempt + 1) :=
  rfl

/-- Each build-phase iteration appends exactly one `FixAttempt` record. -/
theorem buildFixStep_records_length (cfg : PipeCfg) (env : PipeEnv)
    (st : BLoop) :
    (buildFixStep cfg env st).records.length = st.records.length + 1 := by
  simp [buildFixStep]

/-- In the build-phase fix loop, while the re-run keeps failing every
iteration appends exactly one record, so spending the whole fuel appends
`fuel` records and leaves the build failing. -/
theorem buildFixLoop_allFail (cfg : PipeCfg) (env : PipeEnv)
    (hauto : cfg.autoFix = true)
    (hfail : ∀ k, env.buildFixResult k = false) :
    ∀ fuel st, st.buildOk = false →
      (buildFixLoop cfg env fuel st).buildOk = false ∧
      (buildFixLoop cfg env fuel st).records.length = st.records.length + fuel := by
  intro fuel
  induction fuel with
  | zero => intro st hst; exact ⟨hst, rfl⟩
  | succ n ih =>
      intro st hst
      rw [buildFixLoop]
      simp only [hst, hauto, Bool.not_true, Bool.or_self, Bool.false_eq_true,
        if_false]
      have hstep : (buildFixStep cfg env st).buildOk = false := by
        rw [buildFixStep_buildOk]; exact hfail _
      obtain ⟨h1, h2⟩ := ih (buildFixStep cfg env st) hstep
      refine ⟨h1, ?_⟩
      rw [h2, buildFixStep_records_length]
      omega

/-- C3: with `autoFix` on and a build command failing on every invocation,
`runPipeline` produces a run with exactly `maxFixAttempts = N` FixAttempt
records, terminal status `failed`, and `success = false`; for `N = 0` the
loop never runs and the run fails immediately with zero records. -/
theorem permafail_build_exhausts_budget (N : Nat) (cfg : PipeCfg)
    (env : PipeEnv) (hN : cfg.maxFixAttempts = N) (hauto : cfg.autoFix = true)
    (hb0 : env.initialBuild = false)
    (hfail : ∀ k, env.buildFixResult k = false) :
    (runPipelineModel cfg env).fixAttempts.length = N ∧
    (runPipelineModel cfg env).status = Stage.failed ∧
    (runPipelineModel cfg env).success = false := by
  have h := buildFixLoop_allFail cfg env hauto hfail cfg.maxFixAttempts
    { buildOk := env.initialBuild, attempt := 0, records := [], cmds := [] }
    (by simpa using hb0)
  rw [runPipelineModel]
  simp only [h.1, Bool.not_false, if_true, and_true, true_and]
  rw [h.2, hN]
  simp

/-- A configuration with a budget of two attempts, auto-fix on. -/
def cfgBudget : PipeCfg :=
  { maxFixAttempts := 2, autoFix := true, runTests := true
    gitEnabled := true, gitCommitFixes := true }

/-- An environment whose build command fails on every invocation. -/
def envPermaFail : PipeEnv :=
  { isRepo := false
    initialBuild := false
    buildFixResult := fun _ => false
    buildChanged := fun _ => false
    buildCommitOk := fun _ => false
    initialTest := true
    testRebuild := fun _ => true
    testRerun := fun _ => true
    testChanged := fun _ => false
    testCommitOk := fun _ => false }

/-- Witness for `permafail_build_exhausts_budget` at `N = 2`. -/
theorem permafail_build_exhausts_budget_witness :
    cfgBudget.maxFixAttempts = 2 ∧ cfgBudget.autoFix = true ∧
    envPermaFail.initialBuild = false ∧
    (∀ k, envPermaFail.buildFixResult k = false) ∧
    ((runPipelineModel cfgBudget envPermaFail).fixAttempts.length = 2 ∧
      (runPipelineModel cfgBudget envPermaFail).status = Stage.failed ∧
      (runPipelineModel cfgBudget envPermaFail).success = false) :=
  ⟨rfl, rfl, rfl, fun _ => rfl,
    permafail_build_exhausts_budget 2 cfgBudget envPermaFail rfl rfl rfl
      (fun _ => rfl)⟩

/-- The scenario of the regression guard: budget one, git on, commits on;
the build is healthy, the tests fail, the oracle's fix changes files, the
commit succeeds, and the rebuild after the fix fails. -/
def cfgRegression : PipeCfg :=
  { maxFixAttempts := 1, autoFix := true, runTests := true
    gitEnabled := true, gitCommitFixes := true }

/-- Environment for the regression-guard scenario: tests failing, the fix
of attempt 1 committed and breaking the build. -/
def envRegression : PipeEnv :=
  { isRepo := true
    initialBuild := true
    buildFixResult := fun _ => true
    buildChanged := fun _ => false
    buildCommitOk := fun _ => false
    initialTest := false
    testRebuild := fun _ => false
    testRerun := fun _ => true
    testChanged := fun _ => true
    testCommitOk := fun _ => true }

/-- C1 (code bug): the regression guard's rollback is a no-op.  The
pipeline passes the literal string `"HEAD~1"` to `rollback`, whose own
hash validation (`/^[a-f0-9]{7,40}$/i`) rejects it, so no `git reset
--hard` is ever issued — in the concrete breaking-fix scenario the only
git command of the run is the fix commit, and the bad commit survives.
The loop does continue without re-running the test command (the test ran
only once, at phase entry), so only the rollback half of the claim fails. -/
theorem regression_guard_reset_never_fires :
    matchesHashPattern "HEAD~1" = false ∧
    rollback true "HEAD~1" = (false, []) ∧
    (runPipelineModel cfgRegression envRegression).gitCmds =
      [GitCmd.stageAndCommit 1] ∧
    (runPipelineModel cfgRegression envRegression).testsRun = 1 ∧
    (runPipelineModel cfgRegression envRegression).status = Stage.failed :=
  ⟨by decide, by decide, rfl, rfl, rfl⟩

/-- A two-attempt configuration for the broken-fix scenario. -/
def cfgBrokenFix : PipeCfg :=
  { maxFixAttempts := 2, autoFix := true, runTests := true
    gitEnabled := true, gitCommitFixes := true }

/-- Environment for the broken-fix scenario: tests fail, the fix of
attempt 1 is committed but breaks the build, the fix of attempt 2 rebuilds
cleanly and makes the tests pass. -/
def envBrokenFix : PipeEnv :=
  { isRepo := true
    initialBuild := true
    buildFixResult := fun _ => true
    buildChanged := fun _ => false
    buildCommitOk := fun _ => false
    initialTest := false
    testRebuild := fun k => k == 2
    testRerun := fun _ => true
    testChanged := fun _ => true
    testCommitOk := fun _ => true }

/-- C8 counterexample: in the broken-fix scenario the fix of attempt 1 is
committed (`stageAndCommit 1` is issued) and breaks the build
(`testRebuild 1 = false`), yet the finished run carries a `FixAttempt`
record only for attempt 2 — the broken attempt is *not* recorded, because
the loop `continue`s before the record push. -/
theorem broken_fix_leaves_no_record_cx :
    envBrokenFix.testRebuild 1 = false ∧
    (runPipelineModel cfgBrokenFix envBrokenFix).gitCmds =
      [GitCmd.stageAndCommit 1, GitCmd.stageAndCommit 2] ∧
    (runPipelineModel cfgBrokenFix envBrokenFix).fixAttempts.map
      (fun r => r.attempt) = [2] ∧
    (runPipelineModel cfgBrokenFix envBrokenFix).status = Stage.complete :=
  ⟨rfl, rfl, rfl, rfl⟩

/-- C8 amended: when the fix of a test-fix attempt breaks the build, the
iteration consumes budget and the loop continues with a fresh attempt, but
no `FixAttempt` record is appended for the broken attempt and the test
command is not run in that iteration. -/
theorem broken_fix_skips_record_and_continues (cfg : PipeCfg) (env : PipeEnv)
    (fuel : Nat) (st : TLoop) (hauto : cfg.autoFix = true)
    (ht : st.testOk = false) (hb : env.testRebuild (st.attempt + 1) = false) :
    testFixLoop cfg env (fuel + 1) st =
      testFixLoop cfg env fuel (testFixStep cfg env st) ∧
    (testFixStep cfg env st).records = st.records ∧
    (testFixStep cfg env st).testsRun = st.testsRun ∧
    (testFixStep cfg env st).testOk = false ∧
    (testFixStep cfg env st).attempt = st.attempt + 1 := by
  refine ⟨?_, ?_, ?_, ?_, ?_⟩
  · rw [testFixLoop]
    simp [ht, hauto]
  · simp [testFixStep, hb]
  · simp [testFixStep, hb]
  · simp [testFixStep, hb, ht]
  · simp [testFixStep, hb]

/-- Witness for `broken_fix_skips_record_and_continues` at the entry state
of the broken-fix scenario's test phase. -/
theorem broken_fix_skips_record_and_continues_witness :
    cfgBrokenFix.autoFix = true ∧
    (TLoop.mk false 0 [] [] 1).testOk = false ∧
    envBrokenFix.testRebuild ((TLoop.mk false 0 [] [] 1).attempt + 1) = false ∧
    (testFixLoop cfgBrokenFix envBrokenFix 2 (TLoop.mk false 0 [] [] 1) =
      testFixLoop cfgBrokenFix envBrokenFix 1
        (testFixStep cfgBrokenFix envBrokenFix (TLoop.mk false 0 [] [] 1)) ∧
     (testFixStep cfgBrokenFix envBrokenFix (TLoop.mk false 0 [] [] 1)).records
        = (TLoop.mk false 0 [] [] 1).records ∧
     (testFixStep cfgBrokenFix envBrokenFix (TLoop.mk false 0 [] [] 1)).testsRun
        = (TLoop.mk false 0 [] [] 1).testsRun ∧
     (testFixStep cfgBrokenFix envBrokenFix (TLoop.mk false 0 [] [] 1)).testOk
        = false ∧
     (testFixStep cfgBrokenFix envBrokenFix (TLoop.mk false 0 [] [] 1)).attempt
        = (TLoop.mk false 0 [] [] 1).attempt + 1) :=
  ⟨rfl, rfl, rfl,
    broken_fix_skips_record_and_continues cfgBrokenFix envBrokenFix 1
      (TLoop.mk false 0 [] [] 1) rfl rfl rfl⟩

/-- Overwriting the entry at `p` leaves every other key's lookup
unchanged (map branch of `fsWrite`). -/
theorem fsLookup_mapWrite_of_ne (p q : List String) (c : String)
    (h : ¬ q = p) :
    ∀ fs : FileSys,
      fsLookup (fs.map (fun e => if e.1 = p then (p, c) else e)) q =
        fsLookup fs q := by
  intro fs
  induction fs with
  | nil => rfl
  | cons e es ih =>
      by_cases hep : e.1 = p
      · have hpc : (decide (((p, c) : List String × String).1 = q)) = false := by
          simp only [decide_eq_false_iff_not]
          exact fun hh => h hh.symm
        have heq : (decide (e.1 = q)) = false := by
          simp only [decide_eq_false_iff_not]
          intro hh
          exact h (hh.symm.trans hep)
        simp only [List.map_cons, fsLookup, List.find?, if_pos hep, hpc, heq]
        exact ih
      · by_cases heq : e.1 = q
        · simp only [List.map_cons, fsLookup, List.find?, if_neg hep,
            show (decide (e.1 = q)) = true from by simpa using heq]
        · simp only [List.map_cons, fsLookup, List.find?, if_neg hep,
            show (decide (e.1 = q)) = false from by simpa using heq]
          exact ih

/-- Appending a fresh entry at `p` leaves every other key's lookup
unchanged (append branch of `fsWrite`). -/
theorem fsLookup_append_of_ne (p q : List String) (c : String)
    (h : ¬ q = p) :
    ∀ fs : FileSys, fsLookup (fs ++ [(p, c)]) q = fsLookup fs q := by
  intro fs
  induction fs with
  | nil =>
      simp only [List.nil_append, fsLookup, List.find?]
      rw [show (decide ((p, c).1 = q)) = false from by
        simpa using fun hh => h hh.symm]
  | cons e es ih =>
      simp only [List.cons_append, fsLookup, List.find?]
      by_cases heq : e.1 = q
      · rw [show (decide (e.1 = q)) = true from by simpa using heq]
      · rw [show (decide (e.1 = q)) = false from by simpa using heq]
        exact ih

/-- The write `fsWrite` changes the lookup of no key other than the written one. -/
theorem fsLookup_fsWrite_of_ne (fs : FileSys) (p q : List String)
    (c : String) (h : ¬ q = p) :
    fsLookup (fsWrite fs p c) q = fsLookup fs q := by
  unfold fsWrite
  by_cases hmem : fs.any (fun e => decide (e.1 = p))
  · rw [if_pos hmem]
    exact fsLookup_mapWrite_of_ne p q c h fs
  · rw [if_neg hmem]
    exact fsLookup_append_of_ne p q c h fs

/-- A successful `safeResolvePath` only ever returns a path passing the
containment check. -/
theorem safeResolvePath_some_underRoot (cwd : List String) (f root : String)
    (q : List String) (h : safeResolvePath cwd f root = some q) :
    underRoot (resolvePath cwd root) q = true := by
  unfold safeResolvePath at h
  by_cases hu : underRoot (resolvePath cwd root) (joinThenResolve cwd root f) = true
  · rw [if_pos hu] at h
    exact (Option.some_inj.mp h) ▸ hu
  · rw [if_neg hu] at h
    exact absurd h (by simp)

/-- Folding the edit loop never changes the contents of a path that fails
the containment check. -/
theorem applyEdits_go_confined (cwd : List String) (root : String) :
    ∀ (edits : List Edit) (acc : List String × FileSys) (p : List String),
      fsLookup (edits.foldl (applyEditStep cwd root) acc).2 p ≠
        fsLookup acc.2 p →
      underRoot (resolvePath cwd root) p = true := by
  intro edits
  induction edits with
  | nil => intro acc p h; exact absurd rfl h
  | cons e es ih =>
      intro acc p h
      rw [List.foldl_cons] at h
      cases hsr : safeResolvePath cwd e.file root with
      | none =>
          apply ih (applyEditStep cwd root acc e) p
          rw [applyEditStep, hsr]
          rw [applyEditStep, hsr] at h
          exact h
      | some q =>
          by_cases hpq : p = q
          · exact hpq ▸ safeResolvePath_some_underRoot cwd e.file root q hsr
          · apply ih (applyEditStep cwd root acc e) p
            intro hcontra
            apply h
            rw [hcontra, applyEditStep, hsr]
            exact fsLookup_fsWrite_of_ne acc.2 q p e.content hpq

/-- C5: paths escaping the project root are never written.  Whenever the
lexical resolution of an edit target (however it is spelled — `../`
segments, absolute escapes, `.`-games) leaves the project root,
`safeResolvePath` returns `null`, and `applyEdits` — which skips such
edits without throwing — changes the contents of no path that fails the
containment check: every write lands under (or at) the resolved root. -/
theorem applyEdits_confined (cwd : List String) (root : String) :
    (∀ file,
      underRoot (resolvePath cwd root) (joinThenResolve cwd root file) = false →
      safeResolvePath cwd file root = none) ∧
    (∀ (edits : List Edit) (fs : FileSys) (p : List String),
      fsLookup (applyEdits cwd edits root fs).2 p ≠ fsLookup fs p →
      underRoot (resolvePath cwd root) p = true) := by
  constructor
  · intro file hout
    unfold safeResolvePath
    rw [if_neg (by simp [hout])]
  · intro edits fs p h
    exact applyEdits_go_confined cwd root edits ([], fs) p h

/-- Witness for `applyEdits_confined`: with root `/proj` and working
directory `/w`, the spelling `../outside.txt` resolves to `/outside.txt`,
fails the containment check, and is rejected by `safeResolvePath`; an
`applyEdits` call carrying only that edit leaves the (empty) disk with the
escaped path still unwritten. -/
theorem applyEdits_confined_witness :
    underRoot (resolvePath ["w"] "/proj")
      (joinThenResolve ["w"] "/proj" "../outside.txt") = false ∧
    safeResolvePath ["w"] "../outside.txt" "/proj" = none :=
  ⟨by decide, (applyEdits_confined ["w"] "/proj").1 "../outside.txt" (by decide)⟩

/-- Severity-ordered insertion grows the list by exactly one. -/
theorem insertBySeverity_length (x : Issue) (l : List Issue) :
    (insertBySeverity x l).length = l.length + 1 := by
  induction l with
  | nil => rfl
  | cons y ys ih =>
      by_cases h : x.severity ≤ y.severity <;>
        simp [insertBySeverity, h, ih]

/-- The severity sort preserves the number of issues. -/
theorem sortBySeverity_length (l : List Issue) :
    (sortBySeverity l).length = l.length := by
  induction l with
  | nil => rfl
  | cons x xs ih => simp [sortBySeverity, insertBySeverity_length, ih]

/-- The fix loop never grows the remaining-issue queue. -/
theorem autoFixLoop_remaining_le (env : AutoFixEnv) :
    ∀ (fuel n : Nat) (remaining : List Issue) (attempts : List AFAttempt),
      (autoFixLoop env fuel n remaining attempts).1.length ≤
        remaining.length := by
  intro fuel
  induction fuel with
  | zero => intro n r a; exact Nat.le_refl _
  | succ m ih =>
      intro n r a
      match r with
      | [] => simp [autoFixLoop]
      | issue :: rest =>
          rw [autoFixLoop]
          cases houtcome : env.outcome (n + 1) with
          | errored =>
              simp only
              exact le_trans (ih (n + 1) rest _) (by simp)
          | noEdits =>
              simp only
              exact le_trans (ih (n + 1) rest _) (by simp)
          | applied still flagsEmpty othersFixed =>
              simp only
              by_cases hf : flagsEmpty = true
              · simp [hf]
              · rw [if_neg (by simpa using hf)]
                refine le_trans (ih (n + 1) _ _) ?_
                by_cases ho : othersFixed = true
                · simp [ho]
                · rw [if_neg (by simpa using ho)]
                  by_cases hs : still = true
                  · simp only [hs, Bool.not_true]
                    rw [if_neg (by simp)]
                    split_ifs <;> simp [List.length_cons]
                  · simp only [show still = false from by simpa using hs,
                      Bool.not_false, if_pos rfl]
                    simp

/-- C7: the counts reported by `runAutoFix` always reconcile —
`issuesFixed + issuesRemaining = issues.length` for every input, and
`issuesFixed` is never negative (the queue never outgrows the original
issue list). -/
theorem autoFix_count_invariant (issues : List Issue) (maxAttempts : Nat)
    (env : AutoFixEnv) (finalPass : Bool) :
    (runAutoFix issues maxAttempts env finalPass).issuesFixed +
      ((runAutoFix issues maxAttempts env finalPass).issuesRemaining : Int) =
      (issues.length : Int) ∧
    0 ≤ (runAutoFix issues maxAttempts env finalPass).issuesFixed := by
  have hle :
      (autoFixLoop env maxAttempts 0 (sortBySeverity issues) []).1.length ≤
        issues.length := by
    have h := autoFixLoop_remaining_le env maxAttempts 0
      (sortBySeverity issues) []
    rwa [sortBySeverity_length] at h
  simp only [runAutoFix]
  omega

/-- Witness for `executeCommand_total_interface`: a clean exit before the
timer yields `success = true`; a spawn error yields `-1`. -/
theorem executeCommand_total_interface_witness :
    (executeCommand 100
      (ProcBehavior.mk "" "" (ProcEvent.closed (some 0) 7))).success = true ∧
    ((executeCommand 100
        (ProcBehavior.mk "" "" (ProcEvent.errored "ENOENT" 1))).success = false ∧
      (executeCommand 100
        (ProcBehavior.mk "" "" (ProcEvent.errored "ENOENT" 1))).exitCode = -1) :=
  ⟨(executeCommand_total_interface 100
      (ProcBehavior.mk "" "" (ProcEvent.closed (some 0) 7))).1.mpr
        ⟨7, rfl, by decide⟩,
    (executeCommand_total_interface 100
      (ProcBehavior.mk "" "" (ProcEvent.errored "ENOENT" 1))).2.1 "ENOENT" 1 rfl⟩

end AidaCore
